import Mathlib

/-!
# Verification of the inaFaceAnalyzer geometric post-processing layer

A shallow embedding of the face-detection post-processing code:

* `inaFaceAnalyzer/face_detector.py` : the abstract `FaceDetector` contract
  (`__call__`, `most_central_face`), the OpenCV CNN decode loop and
  `get_closest_face`, the `IdentityFaceDetector` and `PrecomputedDetector`
  test doubles;
* `inaFaceGender/face_utils.py` : `intersection_over_union` over dlib
  rectangles and the eye-center extraction helpers;
* `inaFaceGender/opencv_utils.py` : `video_iterator`.

Python floats are modelled as `ℚ`, machine integers as `ℤ`/`ℕ`.
Fallible paths (`raise`) are modelled with `Except`.
-/

namespace InaFace

/-- Modelled from the spec: the `Rect` bounding-box type
(`inaFaceAnalyzer/rect.py`, not part of the provided sources).  The spec
describes it as four coordinates `(x1, y1, x2, y2)` with derived width,
height, area, center point and max dimension length. -/
structure Rect where
  x1 : ℚ
  y1 : ℚ
  x2 : ℚ
  y2 : ℚ
deriving DecidableEq

namespace Rect

/-- Modelled from the spec: box width. -/
def w (r : Rect) : ℚ := r.x2 - r.x1

/-- Modelled from the spec: box height. -/
def h (r : Rect) : ℚ := r.y2 - r.y1

/-- Modelled from the spec: box area. -/
def area (r : Rect) : ℚ := r.w * r.h

/-- Modelled from the spec: box center point. -/
def center (r : Rect) : ℚ × ℚ := ((r.x1 + r.x2) / 2, (r.y1 + r.y2) / 2)

/-- Modelled from the spec: max dimension length (longer side). -/
def max_dim_len (r : Rect) : ℚ := max r.w r.h

/-- Modelled from the spec: `mult(w, h)` scales normalized coordinates to
pixel space. -/
def mult (r : Rect) (wid hgt : ℚ) : Rect :=
  ⟨r.x1 * wid, r.y1 * hgt, r.x2 * wid, r.y2 * hgt⟩

/-- Modelled from the spec: `transpose(dx, dy)` shifts the box. -/
def transpose (r : Rect) (dx dy : ℚ) : Rect :=
  ⟨r.x1 + dx, r.y1 + dy, r.x2 + dx, r.y2 + dy⟩

/-- Modelled from the spec: `square` produces the smallest square box
centered at the same center covering the box (side = longer side). -/
def square (r : Rect) : Rect :=
  let m := r.max_dim_len
  let c := r.center
  ⟨c.1 - m / 2, c.2 - m / 2, c.1 + m / 2, c.2 + m / 2⟩

/-- Modelled from the spec: containment test for a point (the Python
`in` operator on `Rect`). -/
def containsB (r : Rect) (p : ℚ × ℚ) : Bool :=
  decide (r.x1 ≤ p.1) && decide (p.1 ≤ r.x2) &&
  decide (r.y1 ≤ p.2) && decide (p.2 ≤ r.y2)

/-- Modelled from the spec: pairwise intersection box. -/
def inter (a b : Rect) : Rect :=
  ⟨max a.x1 b.x1, max a.y1 b.y1, min a.x2 b.x2, min a.y2 b.y2⟩

/-- Modelled from the spec: area of the intersection, clamped at 0 for
non-overlapping boxes. -/
def interArea (a b : Rect) : ℚ :=
  max 0 (inter a b).w * max 0 (inter a b).h

/-- Modelled from the spec: `iou(other)`, intersection area over union
area. -/
def iou (a b : Rect) : ℚ :=
  interArea a b / (a.area + b.area - interArea a b)

end Rect

/-- `Detection` named tuple of `face_detector.py`: a bounding box plus a
detection confidence.  The confidence is `Option ℚ`: `none` models the
Python values with no meaningful numeric interpretation (`None` for the
precomputed detector, `np.NAN` for the identity detector). -/
structure Detection where
  bbox : Rect
  detect_conf : Option ℚ
deriving DecidableEq

/-- `_sqdist` of `face_detector.py`: squared Euclidean distance between
two points. -/
def _sqdist (p1 p2 : ℚ × ℚ) : ℚ :=
  (p1.1 - p2.1) ^ 2 + (p1.2 - p2.2) ^ 2

/-- Python `int()` applied to a rational: truncation toward zero. -/
def pyInt (q : ℚ) : ℤ := if 0 ≤ q then ⌊q⌋ else ⌈q⌉

/-! ## First-occurrence minimum / maximum (numpy `argmin` / `argmax`)

`np.argmin` returns the index of the first occurrence of the minimum
value; `np.argmax` the index of the first occurrence of the maximum.
We model them by structural recursion. -/

/-- Minimum value of a list of rationals (`none` on the empty list). -/
def minList : List ℚ → Option ℚ
  | [] => none
  | x :: xs =>
    match minList xs with
    | none => some x
    | some m => some (min x m)

/-- Maximum value of a list of rationals (`none` on the empty list). -/
def maxList : List ℚ → Option ℚ
  | [] => none
  | x :: xs =>
    match maxList xs with
    | none => some x
    | some m => some (max x m)

/-- Index of the first occurrence of the minimum (`np.argmin`);
returns 0 on the empty list, as a junk value. -/
def argminList : List ℚ → ℕ
  | [] => 0
  | x :: xs =>
    match minList xs with
    | none => 0
    | some m => if x ≤ m then 0 else argminList xs + 1

/-- Index of the first occurrence of the maximum (`np.argmax`);
returns 0 on the empty list, as a junk value. -/
def argmaxList : List ℚ → ℕ
  | [] => 0
  | x :: xs =>
    match maxList xs with
    | none => 0
    | some m => if m ≤ x then 0 else argmaxList xs + 1

theorem minList_eq_none_iff (l : List ℚ) : minList l = none ↔ l = [] := by
  cases l with
  | nil => simp [minList]
  | cons x xs =>
    simp only [minList]
    cases minList xs <;> simp

theorem maxList_eq_none_iff (l : List ℚ) : maxList l = none ↔ l = [] := by
  cases l with
  | nil => simp [maxList]
  | cons x xs =>
    simp only [maxList]
    cases maxList xs <;> simp

theorem minList_le : ∀ (l : List ℚ) (m : ℚ), minList l = some m →
    ∀ x ∈ l, m ≤ x := by
  intro l
  induction l with
  | nil => intro m hm; simp [minList] at hm
  | cons y ys ih =>
    intro m hm x hx
    simp only [minList] at hm
    cases hys : minList ys with
    | none =>
      rw [hys] at hm
      simp only [Option.some.injEq] at hm
      rcases (minList_eq_none_iff ys).1 hys with rfl
      simp at hx
      simp [hx, ← hm]
    | some m' =>
      rw [hys] at hm
      simp only [Option.some.injEq] at hm
      rcases List.mem_cons.1 hx with rfl | hx'
      · rw [← hm]; exact min_le_left _ _
      · calc m ≤ m' := by rw [← hm]; exact min_le_right _ _
          _ ≤ x := ih m' hys x hx'

theorem maxList_ge : ∀ (l : List ℚ) (m : ℚ), maxList l = some m →
    ∀ x ∈ l, x ≤ m := by
  intro l
  induction l with
  | nil => intro m hm; simp [maxList] at hm
  | cons y ys ih =>
    intro m hm x hx
    simp only [maxList] at hm
    cases hys : maxList ys with
    | none =>
      rw [hys] at hm
      simp only [Option.some.injEq] at hm
      rcases (maxList_eq_none_iff ys).1 hys with rfl
      simp at hx
      simp [hx, ← hm]
    | some m' =>
      rw [hys] at hm
      simp only [Option.some.injEq] at hm
      rcases List.mem_cons.1 hx with rfl | hx'
      · rw [← hm]; exact le_max_left _ _
      · calc x ≤ m' := ih m' hys x hx'
          _ ≤ m := by rw [← hm]; exact le_max_right _ _

theorem argminList_getElem (l : List ℚ) : l[argminList l]? = minList l := by
  induction l with
  | nil => rfl
  | cons x xs ih =>
    simp only [argminList, minList]
    cases hxs : minList xs with
    | none => simp
    | some m =>
      by_cases hx : x ≤ m
      · simp [hx, min_eq_left hx]
      · simp only [hx, if_false, List.getElem?_cons_succ]
        rw [ih, hxs, min_eq_right (le_of_not_le hx)]

theorem argminList_lt_before : ∀ (l : List ℚ) (m : ℚ), minList l = some m →
    ∀ j u, j < argminList l → l[j]? = some u → m < u := by
  intro l
  induction l with
  | nil => intro m hm; simp [minList] at hm
  | cons x xs ih =>
    intro m hm j u hj hu
    simp only [minList] at hm
    simp only [argminList] at hj
    cases hxs : minList xs with
    | none => rw [hxs] at hj; exact absurd hj (Nat.not_lt_zero j)
    | some mx =>
      rw [hxs] at hj hm
      simp only [Option.some.injEq] at hm
      by_cases hx : x ≤ mx
      · simp [hx] at hj
      · simp only [hx, if_false] at hj
        have hmmx : m = mx := by rw [← hm, min_eq_right (le_of_not_le hx)]
        subst hmmx
        cases j with
        | zero =>
          simp only [List.getElem?_cons_zero, Option.some.injEq] at hu
          subst hu
          exact lt_of_not_le hx
        | succ j' =>
          simp only [List.getElem?_cons_succ] at hu
          exact ih m hxs j' u (by omega) hu

theorem argmaxList_getElem (l : List ℚ) : l[argmaxList l]? = maxList l := by
  induction l with
  | nil => rfl
  | cons x xs ih =>
    simp only [argmaxList, maxList]
    cases hxs : maxList xs with
    | none => simp
    | some m =>
      by_cases hx : m ≤ x
      · simp [hx, max_eq_left hx]
      · simp only [hx, if_false, List.getElem?_cons_succ]
        rw [ih, hxs, max_eq_right (le_of_not_le hx)]

theorem argmaxList_gt_before : ∀ (l : List ℚ) (m : ℚ), maxList l = some m →
    ∀ j u, j < argmaxList l → l[j]? = some u → u < m := by
  intro l
  induction l with
  | nil => intro m hm; simp [maxList] at hm
  | cons x xs ih =>
    intro m hm j u hj hu
    simp only [maxList] at hm
    simp only [argmaxList] at hj
    cases hxs : maxList xs with
    | none => rw [hxs] at hj; exact absurd hj (Nat.not_lt_zero j)
    | some mx =>
      rw [hxs] at hj hm
      simp only [Option.some.injEq] at hm
      by_cases hx : mx ≤ x
      · simp [hx] at hj
      · simp only [hx, if_false] at hj
        have hmmx : m = mx := by rw [← hm, max_eq_right (le_of_not_le hx)]
        subst hmmx
        cases j with
        | zero =>
          simp only [List.getElem?_cons_zero, Option.some.injEq] at hu
          subst hu
          exact lt_of_not_le hx
        | succ j' =>
          simp only [List.getElem?_cons_succ] at hu
          exact ih m hxs j' u (by omega) hu

/-! ## `FaceDetector.most_central_face` (face_detector.py, lines 101-128)

The method first runs the full detection pipeline `self(frame, verbose)`;
we parametrise over `dets`, the list of detections produced on the frame,
exactly as the claim quantifies over "every list of detections produced
on it".  `frame.shape` is `(height, width, 3)`, so the frame center is
`(width / 2, height / 2)`. -/

/-- `FaceDetector.most_central_face`: keep the detections whose box
contains the frame center, return `None` if there are none, else the one
at `np.argmin` of the squared distances between box centers and the frame
center. -/
def most_central_face (hgt wid : ℕ) (dets : List Detection) : Option Detection :=
  match dets.filter (fun f => f.bbox.containsB ((wid : ℚ) / 2, (hgt : ℚ) / 2)) with
  | [] => none
  | f0 :: fs =>
    some ((f0 :: fs).getD
      (argminList ((f0 :: fs).map
        (fun f => _sqdist f.bbox.center ((wid : ℚ) / 2, (hgt : ℚ) / 2)))) f0)

/-- C1.  `most_central_face` returns `None` exactly when no detection's
bounding box contains the frame's geometric center `(width/2, height/2)`;
otherwise it returns, among the detections whose box contains that
center, the one whose box center has minimal squared Euclidean distance
to the frame center, ties resolved in favor of the first such detection
in detection order. -/
theorem most_central_face_correct (hgt wid : ℕ) (dets : List Detection) :
    (most_central_face hgt wid dets = none ↔
      ∀ f ∈ dets, f.bbox.containsB ((wid : ℚ) / 2, (hgt : ℚ) / 2) = false) ∧
    (∀ d, most_central_face hgt wid dets = some d →
      ∃ i,
        (dets.filter
          (fun f => f.bbox.containsB ((wid : ℚ) / 2, (hgt : ℚ) / 2)))[i]? = some d ∧
        (∀ f ∈ dets.filter
            (fun f => f.bbox.containsB ((wid : ℚ) / 2, (hgt : ℚ) / 2)),
          _sqdist d.bbox.center ((wid : ℚ) / 2, (hgt : ℚ) / 2) ≤
            _sqdist f.bbox.center ((wid : ℚ) / 2, (hgt : ℚ) / 2)) ∧
        (∀ (j : ℕ) (u : Detection), j < i →
          (dets.filter
            (fun f => f.bbox.containsB ((wid : ℚ) / 2, (hgt : ℚ) / 2)))[j]? = some u →
          _sqdist d.bbox.center ((wid : ℚ) / 2, (hgt : ℚ) / 2) <
            _sqdist u.bbox.center ((wid : ℚ) / 2, (hgt : ℚ) / 2))) := by
  cases hf : dets.filter (fun f => f.bbox.containsB ((wid : ℚ) / 2, (hgt : ℚ) / 2)) with
  | nil =>
    have hval : most_central_face hgt wid dets = none := by
      unfold most_central_face
      rw [hf]
    refine ⟨⟨fun _ => ?_, fun _ => hval⟩, fun d hd => ?_⟩
    · intro f hfd
      have := List.filter_eq_nil_iff.1 hf f hfd
      simpa using this
    · rw [hval] at hd
      cases hd
  | cons f0 fs =>
    have hmm : ∃ m, minList ((f0 :: fs).map
        (fun f => _sqdist f.bbox.center ((wid : ℚ) / 2, (hgt : ℚ) / 2))) = some m := by
      cases hml : minList ((f0 :: fs).map
          (fun f => _sqdist f.bbox.center ((wid : ℚ) / 2, (hgt : ℚ) / 2))) with
      | none =>
        have := (minList_eq_none_iff _).1 hml
        simp at this
      | some m => exact ⟨m, rfl⟩
    obtain ⟨m, hm⟩ := hmm
    have hgetm := argminList_getElem ((f0 :: fs).map
      (fun f => _sqdist f.bbox.center ((wid : ℚ) / 2, (hgt : ℚ) / 2)))
    rw [hm, List.getElem?_map] at hgetm
    obtain ⟨d', hd', hsqd'⟩ := Option.map_eq_some'.1 hgetm
    have hval : most_central_face hgt wid dets = some d' := by
      unfold most_central_face
      rw [hf]
      show some ((f0 :: fs).getD (argminList ((f0 :: fs).map
        (fun f => _sqdist f.bbox.center ((wid : ℚ) / 2, (hgt : ℚ) / 2)))) f0) = some d'
      rw [List.getD_eq_getElem?_getD, hd']
      rfl
    refine ⟨⟨fun hno => ?_, fun hall => ?_⟩, fun d hd => ?_⟩
    · rw [hval] at hno
      cases hno
    · exfalso
      have hf0 : f0 ∈ dets.filter
          (fun f => f.bbox.containsB ((wid : ℚ) / 2, (hgt : ℚ) / 2)) := by
        rw [hf]
        exact List.mem_cons_self _ _
      have h1 := (List.mem_filter.1 hf0).2
      have h2 := hall f0 (List.mem_filter.1 hf0).1
      rw [h2] at h1
      cases h1
    · rw [hval] at hd
      injection hd with hdd
      subst hdd
      refine ⟨argminList ((f0 :: fs).map
        (fun f => _sqdist f.bbox.center ((wid : ℚ) / 2, (hgt : ℚ) / 2))), ?_, ?_, ?_⟩
      · exact hd'
      · intro f hfmem
        rw [hsqd']
        exact minList_le _ m hm _ (List.mem_map_of_mem _ hfmem)
      · intro j u hj hu
        rw [hsqd']
        refine argminList_lt_before _ m hm j _ hj ?_
        rw [List.getElem?_map, hu]
        rfl

/-- Witness for C1: on a 10×10 frame with a single detection whose box
does not contain the center (5, 5), `most_central_face` returns `None`. -/
theorem most_central_face_correct_witness :
    most_central_face 10 10 [⟨⟨0, 0, 2, 2⟩, none⟩] = none :=
  (most_central_face_correct 10 10 [⟨⟨0, 0, 2, 2⟩, none⟩]).1.2 (by
    intro f hf
    simp only [List.mem_singleton] at hf
    subst hf
    norm_num [Rect.containsB])

/-! ## `Rect.transpose` round trip and de-padding (C5)

`FaceDetector.__call__` (face_detector.py, lines 63-78): when padding was
applied, each returned detection is shifted by
`bbox.transpose(-xoffset, -yoffset)`. -/

/-- C5.  Transposing a box by `(xoff, yoff)` and then by
`(-xoff, -yoff)` yields the box back exactly; consequently mapping the
negative-offset transpose over a list of detections whose boxes were
shifted by the padding offsets recovers the original detections, as the
de-padding step of `FaceDetector.__call__` relies on. -/
theorem transpose_roundtrip (b : Rect) (xoff yoff : ℚ) :
    (b.transpose xoff yoff).transpose (-xoff) (-yoff) = b ∧
    ∀ l : List Detection,
      (l.map (fun e => { e with bbox := e.bbox.transpose xoff yoff })).map
        (fun e => { e with bbox := e.bbox.transpose (-xoff) (-yoff) }) = l := by
  constructor
  · simp only [Rect.transpose]
    congr 1 <;> ring
  · intro l
    induction l with
    | nil => rfl
    | cons e es ih =>
      simp only [List.map_cons, ih]
      congr 1
      have : (e.bbox.transpose xoff yoff).transpose (-xoff) (-yoff) = e.bbox := by
        simp only [Rect.transpose]
        congr 1 <;> ring
      cases e
      simp_all

/-! ## `OcvCnnFacedetector.get_closest_face` (face_detector.py, 217-242) -/

/-- The local squarification choice in `get_closest_face`:
`f = lambda x: x.square` when `squarify` is set, else the identity. -/
def squarifyFn (squarify : Bool) (r : Rect) : Rect :=
  if squarify then r.square else r

theorem square_of_eq_sides (s : Rect) (hs : s.w = s.h) : s.square = s := by
  obtain ⟨a, b, c, d⟩ := s
  simp only [Rect.w, Rect.h] at hs
  simp only [Rect.square, Rect.max_dim_len, Rect.w, Rect.h, Rect.center,
    Rect.mk.injEq]
  rw [hs, max_self]
  refine ⟨by linarith, by linarith, by linarith, by linarith⟩

theorem square_idem (r : Rect) : r.square.square = r.square := by
  apply square_of_eq_sides
  simp only [Rect.square, Rect.w, Rect.h, Rect.center, Rect.max_dim_len]
  ring

theorem squarifyFn_idem (squarify : Bool) (r : Rect) :
    squarifyFn squarify (squarifyFn squarify r) = squarifyFn squarify r := by
  cases squarify with
  | false => rfl
  | true => simp only [squarifyFn, if_true]; exact square_idem r

/-- `OcvCnnFacedetector.get_closest_face`: square the reference box (and
each candidate) when `squarify` is set, compute the IoU of the reference
against each detection of `self(frame)`, take `np.argmax`, return `None`
when the detection list is empty or the best IoU is `< min_iou`, else the
best detection.  We parametrise over `dets`, the detection list produced
by `self(frame, verbose)`.  Note the code applies the squarification to
the already-squared reference a second time inside the comprehension. -/
def get_closest_face (dets : List Detection) (ref_bbox : Rect)
    (min_iou : ℚ) (squarify : Bool) : Option Detection :=
  match dets with
  | [] => none
  | d0 :: ds =>
    let liou := (d0 :: ds).map (fun dtc =>
      (squarifyFn squarify (squarifyFn squarify ref_bbox)).iou
        (squarifyFn squarify dtc.bbox))
    if liou.getD (argmaxList liou) 0 < min_iou then none
    else some ((d0 :: ds).getD (argmaxList liou) d0)

theorem get_closest_face_cons (d0 : Detection) (ds : List Detection)
    (ref_bbox : Rect) (min_iou : ℚ) (squarify : Bool) :
    get_closest_face (d0 :: ds) ref_bbox min_iou squarify =
      if ((d0 :: ds).map (fun dtc =>
            (squarifyFn squarify ref_bbox).iou
              (squarifyFn squarify dtc.bbox))).getD
          (argmaxList ((d0 :: ds).map (fun dtc =>
            (squarifyFn squarify ref_bbox).iou
              (squarifyFn squarify dtc.bbox)))) 0 < min_iou then none
      else some ((d0 :: ds).getD
        (argmaxList ((d0 :: ds).map (fun dtc =>
          (squarifyFn squarify ref_bbox).iou
            (squarifyFn squarify dtc.bbox)))) d0) := by
  simp only [get_closest_face, squarifyFn_idem]

/-- C2.  `get_closest_face` returns `None` on an empty detection list;
otherwise, with `f` the squarification (resp. identity) map according to
the `squarify` flag, it returns the detection maximizing
`iou(f(ref), f(candidate))` — first maximum on ties — when that maximum
IoU is `≥ min_iou`, and `None` when the maximum IoU is `< min_iou`. -/
theorem argmaxSelect (g : Detection → ℚ) (d0 : Detection)
    (ds : List Detection) (m : ℚ)
    (hm : maxList ((d0 :: ds).map g) = some m) :
    ∃ d, (d0 :: ds)[argmaxList ((d0 :: ds).map g)]? = some d ∧
      (d0 :: ds).getD (argmaxList ((d0 :: ds).map g)) d0 = d ∧
      ((d0 :: ds).map g).getD (argmaxList ((d0 :: ds).map g)) 0 = m ∧
      g d = m ∧
      (∀ x ∈ d0 :: ds, g x ≤ m) ∧
      (∀ (j : ℕ) (u : Detection), j < argmaxList ((d0 :: ds).map g) →
        (d0 :: ds)[j]? = some u → g u < m) := by
  have hgetm := argmaxList_getElem ((d0 :: ds).map g)
  rw [hm] at hgetm
  have hgetm2 := hgetm
  rw [List.getElem?_map] at hgetm2
  obtain ⟨d, hd, hgd⟩ := Option.map_eq_some'.1 hgetm2
  refine ⟨d, hd, ?_, ?_, hgd, ?_, ?_⟩
  · rw [List.getD_eq_getElem?_getD, hd]
    rfl
  · rw [List.getD_eq_getElem?_getD, hgetm]
    rfl
  · intro x hx
    exact maxList_ge _ m hm _ (List.mem_map_of_mem _ hx)
  · intro j u hj hu
    refine argmaxList_gt_before _ m hm j _ hj ?_
    rw [List.getElem?_map, hu]
    rfl

/-- C2.  `get_closest_face` returns `None` on an empty detection list;
otherwise, with `f` the squarification (resp. identity) map according to
the `squarify` flag, it returns the detection maximizing
`iou(f(ref), f(candidate))` — first maximum on ties — when that maximum
IoU is `≥ min_iou`, and `None` when the maximum IoU is `< min_iou`. -/
theorem get_closest_face_correct (dets : List Detection) (ref_bbox : Rect)
    (min_iou : ℚ) (squarify : Bool) :
    (dets = [] → get_closest_face dets ref_bbox min_iou squarify = none) ∧
    (∀ (d0 : Detection) (ds : List Detection), dets = d0 :: ds →
      ∃ m, maxList (dets.map (fun dtc =>
          (squarifyFn squarify ref_bbox).iou
            (squarifyFn squarify dtc.bbox))) = some m ∧
        (m < min_iou →
          get_closest_face dets ref_bbox min_iou squarify = none) ∧
        (min_iou ≤ m →
          ∃ (i : ℕ) (d : Detection),
            get_closest_face dets ref_bbox min_iou squarify = some d ∧
            dets[i]? = some d ∧
            (squarifyFn squarify ref_bbox).iou
              (squarifyFn squarify d.bbox) = m ∧
            (∀ x ∈ dets, (squarifyFn squarify ref_bbox).iou
              (squarifyFn squarify x.bbox) ≤ m) ∧
            (∀ (j : ℕ) (u : Detection), j < i → dets[j]? = some u →
              (squarifyFn squarify ref_bbox).iou
                (squarifyFn squarify u.bbox) < m))) := by
  refine ⟨fun h => by subst h; rfl, ?_⟩
  intro d0 ds hdets
  subst hdets
  obtain ⟨m, hm⟩ : ∃ m, maxList ((d0 :: ds).map (fun dtc =>
      (squarifyFn squarify ref_bbox).iou
        (squarifyFn squarify dtc.bbox))) = some m := by
    cases hml : maxList ((d0 :: ds).map (fun dtc =>
        (squarifyFn squarify ref_bbox).iou
          (squarifyFn squarify dtc.bbox))) with
    | none =>
      have := (maxList_eq_none_iff _).1 hml
      simp at this
    | some m => exact ⟨m, rfl⟩
  obtain ⟨d, hd, hgetD, hliouD, hgd, hle, hbefore⟩ :=
    argmaxSelect (fun dtc =>
      (squarifyFn squarify ref_bbox).iou
        (squarifyFn squarify dtc.bbox)) d0 ds m hm
  refine ⟨m, hm, ?_, ?_⟩
  · intro hlt
    rw [get_closest_face_cons, hliouD, if_pos hlt]
  · intro hge
    refine ⟨_, d, ?_, hd, hgd, hle, hbefore⟩
    rw [get_closest_face_cons, hliouD, if_neg (not_lt.2 hge), hgetD]

/-- Witness for C2: reference box `(0,0,10,10)`, candidates with IoU
`9/10` and `1/10`; with `min_iou = 95/100` above the best IoU,
`get_closest_face` returns `None`. -/
theorem get_closest_face_correct_witness :
    get_closest_face [⟨⟨0, 0, 10, 9⟩, some 1⟩, ⟨⟨0, 0, 10, 1⟩, some 1⟩]
      ⟨0, 0, 10, 10⟩ (95/100) false = none := by
  obtain ⟨m, hm, hlt, _⟩ :=
    (get_closest_face_correct
      [⟨⟨0, 0, 10, 9⟩, some 1⟩, ⟨⟨0, 0, 10, 1⟩, some 1⟩]
      ⟨0, 0, 10, 10⟩ (95/100) false).2 _ _ rfl
  have hm' : maxList (([⟨⟨0, 0, 10, 9⟩, some 1⟩,
        ⟨⟨0, 0, 10, 1⟩, some 1⟩] : List Detection).map (fun dtc =>
      (squarifyFn false (⟨0, 0, 10, 10⟩ : Rect)).iou
        (squarifyFn false dtc.bbox))) = some (9/10) := by
    norm_num [maxList, squarifyFn, Rect.iou, Rect.interArea, Rect.inter,
      Rect.area, Rect.w, Rect.h, max_def, min_def]
  rw [hm'] at hm
  injection hm with hmm
  refine hlt ?_
  rw [← hmm]
  norm_num

/-! ## The size filter of `FaceDetector.__call__` (face_detector.py, 72-75) -/

/-- The size-filter step: `min_face_size = max(min_size_px,
min_size_prct * min(frame_height, frame_width))`; the filter is applied
only when `min_face_size > 0`, and retains detections with
`bbox.max_dim_len >= min_face_size`. -/
def sizeFilter (min_size_px min_size_prct : ℚ) (hgt wid : ℕ)
    (lret : List Detection) : List Detection :=
  if 0 < max min_size_px (min_size_prct * ((min hgt wid : ℕ) : ℚ)) then
    lret.filter (fun e =>
      decide (max min_size_px (min_size_prct * ((min hgt wid : ℕ) : ℚ)) ≤
        e.bbox.max_dim_len))
  else lret

/-- Counterexample to C3 as stated: with `min_size_px = 0` and
`min_size_prct = 0` the threshold is `0`, the `min_face_size > 0` guard
skips the filter, and a degenerate detection whose longer side is
negative (here the box `(5,5,3,3)`, producible by `PrecomputedDetector`)
is retained even though its longer side is below the threshold — the
filter does not retain "exactly" the detections with longer side `≥`
the threshold. -/
theorem sizeFilter_claim_counterexample :
    sizeFilter 0 0 10 10 [⟨⟨5, 5, 3, 3⟩, none⟩] = [⟨⟨5, 5, 3, 3⟩, none⟩] ∧
    ¬ (max (0 : ℚ) (0 * ((min 10 10 : ℕ) : ℚ)) ≤
        (Rect.mk 5 5 3 3).max_dim_len) := by
  constructor
  · norm_num [sizeFilter]
  · norm_num [Rect.max_dim_len, Rect.w, Rect.h, max_def]

/-- C3 (amended).  Whenever the computed threshold
`max(min_size_px, min_size_prct * min(h, w))` is positive, the size
filter retains exactly those detections whose bounding box's longer side
is `≥` the threshold, preserving their original order (it is a
`List.filter`, hence a sublist); in particular this covers
`min_size_px = 30`, `min_size_prct = 0`.  (When the threshold is not
positive the filter step is skipped and every detection is retained.) -/
theorem sizeFilter_correct (mpx mprct : ℚ) (hgt wid : ℕ)
    (l : List Detection)
    (hpos : 0 < max mpx (mprct * ((min hgt wid : ℕ) : ℚ))) :
    sizeFilter mpx mprct hgt wid l =
      l.filter (fun e =>
        decide (max mpx (mprct * ((min hgt wid : ℕ) : ℚ)) ≤
          e.bbox.max_dim_len)) ∧
    (sizeFilter mpx mprct hgt wid l).Sublist l ∧
    (∀ e ∈ l, (e ∈ sizeFilter mpx mprct hgt wid l ↔
      max mpx (mprct * ((min hgt wid : ℕ) : ℚ)) ≤ e.bbox.max_dim_len)) := by
  have hval : sizeFilter mpx mprct hgt wid l =
      l.filter (fun e =>
        decide (max mpx (mprct * ((min hgt wid : ℕ) : ℚ)) ≤
          e.bbox.max_dim_len)) := by
    unfold sizeFilter
    rw [if_pos hpos]
  refine ⟨hval, ?_, ?_⟩
  · rw [hval]
    exact List.filter_sublist l
  · intro e he
    rw [hval]
    simp [List.mem_filter, he]

/-- Witness for C3: with `min_size_px = 30`, `min_size_prct = 0` on a
100×100 frame, a box of longer side 40 is retained and a box of longer
side 20 is excluded, order preserved. -/
theorem sizeFilter_correct_witness :
    (0 : ℚ) < max 30 (0 * ((min 100 100 : ℕ) : ℚ)) ∧
    sizeFilter 30 0 100 100
      [⟨⟨0, 0, 40, 20⟩, none⟩, ⟨⟨0, 0, 20, 5⟩, none⟩] =
      [⟨⟨0, 0, 40, 20⟩, none⟩] := by
  refine ⟨by norm_num, ?_⟩
  rw [(sizeFilter_correct 30 0 100 100
    [⟨⟨0, 0, 40, 20⟩, none⟩, ⟨⟨0, 0, 20, 5⟩, none⟩] (by norm_num)).1]
  norm_num [List.filter, Rect.max_dim_len, Rect.w, Rect.h, max_def]

/-! ## The decode loop of `OcvCnnFacedetector._call_imp`
(face_detector.py, 195-214)

The raw tensor's third axis enumerates candidates; the code asserts they
are sorted by descending confidence and stops scanning at the first
candidate below `minconf`. -/

/-- One raw candidate of the OpenCV CNN output: a confidence
(`detections[0,0,i,2]`) and four normalized coordinates
(`detections[0,0,i,3:7]`). -/
structure RawCand where
  conf : ℚ
  x1 : ℚ
  y1 : ℚ
  x2 : ℚ
  y2 : ℚ
deriving DecidableEq

/-- Per-candidate handling in `_call_imp` (lines 203-212): reject noisy
coordinates entirely outside the unit square (`x1 >= 1 or y1 >= 1 or
x2 <= 0 or y2 <= 0`) or degenerate (`x1 >= x2 or y1 >= y2`); otherwise
scale to pixel coordinates with `bbox.mult(w, h)` and keep the
confidence. -/
def acceptCand (wid hgt : ℚ) (c : RawCand) : Option Detection :=
  if c.x1 ≥ 1 ∨ c.y1 ≥ 1 ∨ c.x2 ≤ 0 ∨ c.y2 ≤ 0 then none
  else if c.x1 ≥ c.x2 ∨ c.y1 ≥ c.y2 then none
  else some ⟨(Rect.mk c.x1 c.y1 c.x2 c.y2).mult wid hgt, some c.conf⟩

/-- The early-exit decode loop: scan candidates in order and `break` at
the first candidate whose confidence is `< minconf`. -/
def decodeEarlyExit (minconf wid hgt : ℚ) : List RawCand → List Detection
  | [] => []
  | c :: rest =>
    if c.conf < minconf then []
    else
      match acceptCand wid hgt c with
      | none => decodeEarlyExit minconf wid hgt rest
      | some d => d :: decodeEarlyExit minconf wid hgt rest

/-- Reference full scan over all candidates: keep every candidate with
confidence `≥ minconf` and apply the same rejection and pixel scaling. -/
def decodeFullScan (minconf wid hgt : ℚ) (cands : List RawCand) :
    List Detection :=
  (cands.filter (fun c => decide (minconf ≤ c.conf))).filterMap
    (acceptCand wid hgt)

/-- C4.  Under the precondition that the raw candidates are sorted by
descending confidence, the early-exit decoding loop returns the same
detection list as a full scan that keeps every candidate with confidence
`≥ minconf` and applies the same degeneracy/out-of-range rejection and
pixel scaling. -/
theorem decodeEarlyExit_eq_fullScan (minconf wid hgt : ℚ)
    (cands : List RawCand)
    (hsorted : List.Pairwise (fun a b => b.conf ≤ a.conf) cands) :
    decodeEarlyExit minconf wid hgt cands =
      decodeFullScan minconf wid hgt cands := by
  induction cands with
  | nil => rfl
  | cons c rest ih =>
    obtain ⟨hc, hrest⟩ := List.pairwise_cons.1 hsorted
    by_cases hcv : c.conf < minconf
    · rw [decodeEarlyExit, if_pos hcv]
      unfold decodeFullScan
      have h1 : decide (minconf ≤ c.conf) = false := by
        simp [not_le.2 hcv]
      have h2 : rest.filter (fun x => decide (minconf ≤ x.conf)) = [] := by
        rw [List.filter_eq_nil_iff]
        intro a ha
        simp only [decide_eq_true_eq]
        exact not_le.2 (lt_of_le_of_lt (hc a ha) hcv)
      rw [List.filter_cons, h1]
      simp [h2]
    · rw [decodeEarlyExit, if_neg hcv]
      unfold decodeFullScan
      have h1 : decide (minconf ≤ c.conf) = true := by
        simp [le_of_not_lt hcv]
      rw [List.filter_cons, h1]
      simp only [if_true]
      rw [List.filterMap_cons]
      cases hac : acceptCand wid hgt c with
      | none => rw [ih hrest]; rfl
      | some d => rw [ih hrest]; rfl

/-- Witness for C4: a concrete sorted candidate list (confidences 0.9
then 0.3 with `minconf = 0.65`) on which the early-exit loop agrees with
the full scan. -/
theorem decodeEarlyExit_eq_fullScan_witness :
    List.Pairwise (fun a b : RawCand => b.conf ≤ a.conf)
      [⟨9/10, 1/10, 1/10, 1/2, 1/2⟩, ⟨3/10, 2/10, 2/10, 6/10, 6/10⟩] ∧
    decodeEarlyExit (65/100) 200 100
      [⟨9/10, 1/10, 1/10, 1/2, 1/2⟩, ⟨3/10, 2/10, 2/10, 6/10, 6/10⟩] =
    decodeFullScan (65/100) 200 100
      [⟨9/10, 1/10, 1/10, 1/2, 1/2⟩, ⟨3/10, 2/10, 2/10, 6/10, 6/10⟩] := by
  have hp : List.Pairwise (fun a b : RawCand => b.conf ≤ a.conf)
      [⟨9/10, 1/10, 1/10, 1/2, 1/2⟩, ⟨3/10, 2/10, 2/10, 6/10, 6/10⟩] := by
    refine List.Pairwise.cons ?_ (List.pairwise_singleton _ _)
    intro b hb
    rcases List.mem_singleton.1 hb with rfl
    norm_num
  exact ⟨hp, decodeEarlyExit_eq_fullScan (65/100) 200 100 _ hp⟩

/-! ## `intersection_over_union` (face_utils.py, 43-51)

The function computes IoU between two `dlib.rectangle` values:
`inter = x.intersect(y).area(); union = x.area() + y.area() - inter;
return inter / union`.  dlib rectangles use inclusive integer
coordinates: `width = right - left + 1` (0 when empty), `is_empty` when
`top > bottom or left > right`, and `intersect` takes componentwise
max/min of the corners. -/

structure DlibRect where
  left : ℤ
  top : ℤ
  right : ℤ
  bottom : ℤ
deriving DecidableEq

namespace DlibRect

/-- dlib `rectangle::is_empty`. -/
def isEmptyB (r : DlibRect) : Bool :=
  decide (r.bottom < r.top) || decide (r.right < r.left)

/-- dlib `rectangle::width`: `right - left + 1`, or 0 when empty. -/
def width (r : DlibRect) : ℤ :=
  if r.isEmptyB then 0 else r.right - r.left + 1

/-- dlib `rectangle::height`: `bottom - top + 1`, or 0 when empty. -/
def height (r : DlibRect) : ℤ :=
  if r.isEmptyB then 0 else r.bottom - r.top + 1

/-- dlib `rectangle::area`. -/
def area (r : DlibRect) : ℤ := r.width * r.height

/-- dlib `rectangle::intersect`: componentwise max/min of corners. -/
def intersect (a b : DlibRect) : DlibRect :=
  ⟨max a.left b.left, max a.top b.top, min a.right b.right,
   min a.bottom b.bottom⟩

end DlibRect

/-- `intersection_over_union` of face_utils.py on dlib rectangles (the
tuple branches only convert tuples to rectangles first). -/
def intersection_over_union (x y : DlibRect) : ℚ :=
  ((x.intersect y).area : ℚ) /
    ((x.area : ℚ) + (y.area : ℚ) - ((x.intersect y).area : ℚ))

/-- C6.  For well-formed boxes with positive area, IoU is symmetric,
equals 1 on identical boxes, and equals 0 on disjoint boxes (zero-area
intersection). -/
theorem intersection_over_union_props (A B : DlibRect)
    (hA : 0 < A.area) (_hB : 0 < B.area) :
    intersection_over_union A B = intersection_over_union B A ∧
    intersection_over_union A A = 1 ∧
    ((A.intersect B).area = 0 → intersection_over_union A B = 0) := by
  refine ⟨?_, ?_, ?_⟩
  · have hcomm : A.intersect B = B.intersect A := by
      simp [DlibRect.intersect, max_comm, min_comm]
    unfold intersection_over_union
    rw [hcomm]
    ring_nf
  · have hAA : A.intersect A = A := by
      simp [DlibRect.intersect]
    unfold intersection_over_union
    rw [hAA]
    have hden : (A.area : ℚ) + (A.area : ℚ) - (A.area : ℚ) = (A.area : ℚ) := by
      ring
    rw [hden]
    exact div_self (by exact_mod_cast hA.ne')
  · intro hz
    unfold intersection_over_union
    rw [hz]
    simp

/-- Witness for C6: the unit-corner box `(0,0,1,1)` has area 4 > 0, the
box `(5,5,6,6)` likewise, they are disjoint, and their IoU is 0. -/
theorem intersection_over_union_props_witness :
    (0 : ℤ) < (DlibRect.mk 0 0 1 1).area ∧
    intersection_over_union ⟨0, 0, 1, 1⟩ ⟨5, 5, 6, 6⟩ = 0 :=
  ⟨by decide,
   (intersection_over_union_props ⟨0, 0, 1, 1⟩ ⟨5, 5, 6, 6⟩
     (by decide) (by decide)).2.2 (by decide)⟩

/-! ## `FaceDetector.__call__` (face_detector.py, 59-92) and the
`Identity` / `Precomputed` detectors

The frame content is irrelevant to the post-processing under study, so a
frame is represented by its `(height, width)` shape and `_call_imp` is
abstracted as a function of the (possibly padded) frame dimensions. -/

/-- The `FaceDetector` attributes read by `__call__`, as set by
`FaceDetector.__init__` (the `minconf` attribute is only read by the
concrete `_call_imp` implementations). -/
structure DetectorParams where
  min_size_px : ℚ
  min_size_prct : ℚ
  padd_prct : ℚ

/-- The attribute dictionary of a detector instance: `none` means the
attribute was never assigned, so that reading it raises
`AttributeError`. -/
structure DetectorState where
  min_size_px : Option ℚ
  min_size_prct : Option ℚ
  padd_prct : Option ℚ

/-- `_blackpadd` (lines 136-144) on frame dimensions: pads the frame to
`(y + 2*yoffset, x + 2*xoffset)` with `xoffset = int(x * paddpercent)`
and `yoffset = int(y * paddpercent)`; returns
(padded height, padded width, yoffset, xoffset). -/
def _blackpadd (hgt wid : ℕ) (paddpercent : ℚ) : ℕ × ℕ × ℤ × ℤ :=
  let xoffset := pyInt ((wid : ℚ) * paddpercent)
  let yoffset := pyInt ((hgt : ℚ) * paddpercent)
  (((hgt : ℤ) + 2 * yoffset).toNat, ((wid : ℤ) + 2 * xoffset).toNat,
   yoffset, xoffset)

/-- The body of `FaceDetector.__call__` (verbose display aside) once all
attributes resolve: optionally pad, run `_call_imp` on the (possibly
padded) frame, size-filter against the original frame's dimensions, then
shift boxes back by the negative padding offsets. -/
def detectorCallPure (p : DetectorParams) (hgt wid : ℕ)
    (callImp : ℕ → ℕ → List Detection) : List Detection :=
  let padded := _blackpadd hgt wid p.padd_prct
  let lret :=
    if p.padd_prct ≠ 0 then callImp padded.1 padded.2.1
    else callImp hgt wid
  let lret := sizeFilter p.min_size_px p.min_size_prct hgt wid lret
  if p.padd_prct ≠ 0 then
    lret.map (fun e => Detection.mk
      (e.bbox.transpose (-(padded.2.2.2 : ℚ)) (-(padded.2.2.1 : ℚ)))
      e.detect_conf)
  else lret

/-- `FaceDetector.__call__` with Python attribute-lookup semantics:
the method first evaluates `self.padd_prct`, then `self.min_size_px`
and `self.min_size_prct`; reading an attribute that was never assigned
raises `AttributeError`. -/
def faceDetectorCall (st : DetectorState) (hgt wid : ℕ)
    (callImp : ℕ → ℕ → List Detection) : Except String (List Detection) :=
  match st.padd_prct with
  | none => Except.error "AttributeError: padd_prct"
  | some pp =>
    match st.min_size_px, st.min_size_prct with
    | some mpx, some mprct =>
      Except.ok (detectorCallPure ⟨mpx, mprct, pp⟩ hgt wid callImp)
    | _, _ => Except.error "AttributeError: min_size"

/-- `IdentityFaceDetector.__init__` is `pass`: it never calls
`super().__init__`, so none of the `FaceDetector` attributes are set on
the instance. -/
def identityDetectorState : DetectorState := ⟨none, none, none⟩

/-- The intent of `IdentityFaceDetector._call_imp` (lines 248-249): one
whole-frame box `(0, 0, w, h)` whose confidence is `np.NAN` (no
meaningful number, modelled `none`).  (The code actually returns a plain
tuple rather than a `Detection`.) -/
def identityCallImp (hgt wid : ℕ) : List Detection :=
  [⟨⟨0, 0, (wid : ℚ), (hgt : ℚ)⟩, none⟩]

/-- C7 (the code contradicts the claim).  Calling the public detect
operation of `IdentityFaceDetector` on any frame raises
`AttributeError` at `self.padd_prct` instead of returning the
whole-frame detection: `IdentityFaceDetector.__init__` is `pass` and
never initializes the attributes `FaceDetector.__call__` reads.  Shown
here at the concrete 4×5 frame. -/
theorem identity_detector_call_raises :
    faceDetectorCall identityDetectorState 4 5 identityCallImp =
      Except.error "AttributeError: padd_prct" := rfl

/-- `PrecomputedDetector.__init__` calls `super().__init__(0, 0, 0, 0)`:
every `FaceDetector` parameter is 0. -/
def precomputedParams : DetectorParams := ⟨0, 0, 0⟩

/-- One entry of `PrecomputedDetector.lbbox`: either a single box tuple
or a list of box tuples. -/
inductive PrecompEntry where
  | tup : ℚ × ℚ × ℚ × ℚ → PrecompEntry
  | lst : List (ℚ × ℚ × ℚ × ℚ) → PrecompEntry

/-- `Rect(*e)` on a 4-tuple. -/
def rectOfTuple (t : ℚ × ℚ × ℚ × ℚ) : Rect := ⟨t.1, t.2.1, t.2.2.1, t.2.2.2⟩

/-- `PrecomputedDetector._call_imp` (lines 318-324) as a state
transformer on the queue `self.lbbox`: return `[]` on an empty queue,
else `pop(0)` the first entry, wrap a tuple entry in a singleton list,
and emit one `Detection` with confidence `None` per box. -/
def precomputedCallImp : List PrecompEntry → List Detection × List PrecompEntry
  | [] => ([], [])
  | PrecompEntry.tup t :: rest => ([⟨rectOfTuple t, none⟩], rest)
  | PrecompEntry.lst ts :: rest =>
      (ts.map (fun t => ⟨rectOfTuple t, none⟩), rest)

/-- C8.  Each call to the Precomputed detector removes exactly the first
entry from its queue: a tuple entry yields a single-element detection
list for that box, a list entry yields one detection per contained box
(each with no confidence value), and on an empty queue the call returns
the empty sequence and leaves the queue empty (so every subsequent call
also returns the empty sequence).  Moreover the public `__call__`
(with the all-zero parameters of `PrecomputedDetector.__init__`) passes
the `_call_imp` result through unchanged. -/
theorem precomputed_detector_correct :
    (precomputedCallImp [] = ([], [])) ∧
    (∀ (t : ℚ × ℚ × ℚ × ℚ) (rest : List PrecompEntry),
      precomputedCallImp (PrecompEntry.tup t :: rest) =
        ([⟨rectOfTuple t, none⟩], rest)) ∧
    (∀ (ts : List (ℚ × ℚ × ℚ × ℚ)) (rest : List PrecompEntry),
      precomputedCallImp (PrecompEntry.lst ts :: rest) =
        (ts.map (fun t => ⟨rectOfTuple t, none⟩), rest)) ∧
    (∀ (q : List PrecompEntry) (hgt wid : ℕ),
      detectorCallPure precomputedParams hgt wid
        (fun _ _ => (precomputedCallImp q).1) = (precomputedCallImp q).1) := by
  refine ⟨rfl, fun t rest => rfl, fun ts rest => rfl, ?_⟩
  intro q hgt wid
  simp [detectorCallPure, precomputedParams, sizeFilter]

/-! ## `video_iterator` (opencv_utils.py, 30-72)

The generator opens the capture, validates it, resolves the time unit
(`frame` leaves bounds as-is; `ms` converts them through the fps;
anything else raises `NotImplementedError` before any frame is
produced), seeks to `start` and then reads frames sequentially, skipping
frames for subsampling and yielding `(position - 1, frame)`.  A video
source is modelled by whether it opens, its fps and its frame sequence
(frame contents abstracted to `ℕ` identifiers).  The iterator's outcome
is the (finite) list of yielded pairs together with the error that
interrupts iteration, if any. -/

structure VideoSource where
  openable : Bool
  fps : ℚ
  frames : List ℕ

/-- The read loop of `video_iterator`: at position `pos`, stop when
`pos > stop` or at end of stream; otherwise read (advancing to
`pos + 1`), skip when `(pos + 1) % subsamp_coeff ≠ 0`, else yield
`((pos + 1) - 1, frame)`. -/
def videoIterLoop (frames : List ℕ) (stop : Option ℤ) (subsamp_coeff : ℕ)
    (pos : ℕ) : List (ℤ × ℕ) :=
  if (match stop with | some s => decide (s < (pos : ℤ)) | none => false) then
    []
  else
    match hfr : frames[pos]? with
    | none => []
    | some fr =>
      let rest := videoIterLoop frames stop subsamp_coeff (pos + 1)
      if (pos + 1) % subsamp_coeff ≠ 0 then rest
      else (((pos : ℤ) + 1) - 1, fr) :: rest
termination_by frames.length - pos
decreasing_by
  have hlt : pos < frames.length :=
    (List.getElem?_eq_some_iff.1 hfr).1
  omega

/-- `video_iterator`: returns the yielded `(frame_index, frame)` pairs
and, when iteration aborts with an exception, the error raised (a
generator raises only once iterated; every error here precedes the
first yield). -/
def video_iterator (src : VideoSource) (time_unit : String)
    (start stop : Option ℤ) (subsamp_coeff : ℕ) :
    List (ℤ × ℕ) × Option String :=
  if src.openable = false then
    ([], some "Exception: Video file does not exist or is invalid")
  else if time_unit = "frame" then
    (videoIterLoop src.frames stop subsamp_coeff
      (match start with | none => 0 | some s => s.toNat), none)
  else if time_unit = "ms" then
    (videoIterLoop src.frames
      (stop.map (fun s => ⌊(s : ℚ) * src.fps / 1000⌋)) subsamp_coeff
      (match start.map (fun s => ⌊(s : ℚ) * src.fps / 1000⌋) with
       | none => 0 | some s => s.toNat), none)
  else ([], some "NotImplementedError")

/-- C9.  For every openable video source and every `time_unit` other
than `"frame"` or `"ms"`, iterating `video_iterator` fails with
`NotImplementedError` and produces no frames before failing. -/
theorem video_iterator_bad_unit (src : VideoSource) (time_unit : String)
    (start stop : Option ℤ) (subsamp_coeff : ℕ)
    (hopen : src.openable = true)
    (hframe : time_unit ≠ "frame") (hms : time_unit ≠ "ms") :
    video_iterator src time_unit start stop subsamp_coeff =
      ([], some "NotImplementedError") := by
  unfold video_iterator
  rw [hopen]
  simp [hframe, hms]

/-- Witness for C9: an openable 25-fps source with three frames and the
unsupported time unit `"s"`. -/
theorem video_iterator_bad_unit_witness :
    video_iterator ⟨true, 25, [0, 1, 2]⟩ "s" none none 1 =
      ([], some "NotImplementedError") :=
  video_iterator_bad_unit ⟨true, 25, [0, 1, 2]⟩ "s" none none 1
    rfl (by decide) (by decide)

/-! ## Eye-center extraction (face_utils.py, 54-73;
face_alignment.py, 56-82)

`_extract_eye_center` sums the six landmark coordinates of an eye and
divides by 6 with Python's integer floor division `//`.  A dlib landmark
shape is modelled as a function from landmark index to integer point. -/

def LEFT_EYE_INDICES : List ℕ := [36, 37, 38, 39, 40, 41]

def RIGHT_EYE_INDICES : List ℕ := [42, 43, 44, 45, 46, 47]

/-- `_extract_eye`: the landmark points at the given indices. -/
def _extract_eye (shape : ℕ → ℤ × ℤ) (eye_indices : List ℕ) :
    List (ℤ × ℤ) :=
  eye_indices.map shape

/-- `_extract_eye_center`: `(sum(xs) // 6, sum(ys) // 6)` with Python
floor division (`Int.fdiv`). -/
def _extract_eye_center (shape : ℕ → ℤ × ℤ) (eye_indices : List ℕ) :
    ℤ × ℤ :=
  (((_extract_eye shape eye_indices).map Prod.fst).sum.fdiv 6,
   ((_extract_eye shape eye_indices).map Prod.snd).sum.fdiv 6)

def extract_left_eye_center (shape : ℕ → ℤ × ℤ) : ℤ × ℤ :=
  _extract_eye_center shape LEFT_EYE_INDICES

def extract_right_eye_center (shape : ℕ → ℤ × ℤ) : ℤ × ℤ :=
  _extract_eye_center shape RIGHT_EYE_INDICES

/-- `Dlib68FaceAlignment.detect_eye_centers`, parametrised by the
landmark shape the external dlib predictor returns for the frame and
face box. -/
def detect_eye_centers (shape : ℕ → ℤ × ℤ) : (ℤ × ℤ) × (ℤ × ℤ) :=
  (extract_left_eye_center shape, extract_right_eye_center shape)

theorem fdiv_six_eq_floor (a : ℤ) : a.fdiv 6 = ⌊((a : ℚ) / 6)⌋ := by
  rw [Int.fdiv_eq_ediv a (by norm_num : (0 : ℤ) ≤ 6)]
  rw [show ((6 : ℚ)) = ((6 : ℕ) : ℚ) by norm_num]
  rw [Rat.floor_intCast_div_natCast a 6]
  rfl

/-- C10.  The extracted left and right eye centers (and hence the pair
returned by `detect_eye_centers`) are integer coordinate pairs equal to
the floor of the arithmetic mean of the six eye-landmark x coordinates
and the floor of the mean of the six y coordinates — integer floor
division of the sum by 6 — so reported eye centers are never
fractional. -/
theorem eye_centers_floor_mean (shape : ℕ → ℤ × ℤ) :
    extract_left_eye_center shape =
      (⌊(((LEFT_EYE_INDICES.map (fun i => (shape i).1)).sum : ℚ) / 6)⌋,
       ⌊(((LEFT_EYE_INDICES.map (fun i => (shape i).2)).sum : ℚ) / 6)⌋) ∧
    extract_right_eye_center shape =
      (⌊(((RIGHT_EYE_INDICES.map (fun i => (shape i).1)).sum : ℚ) / 6)⌋,
       ⌊(((RIGHT_EYE_INDICES.map (fun i => (shape i).2)).sum : ℚ) / 6)⌋) ∧
    detect_eye_centers shape =
      (extract_left_eye_center shape, extract_right_eye_center shape) := by
  refine ⟨?_, ?_, rfl⟩ <;>
  · simp only [extract_left_eye_center, extract_right_eye_center,
      _extract_eye_center, _extract_eye, List.map_map]
    rw [fdiv_six_eq_floor, fdiv_six_eq_floor]
    rfl

end InaFace
